import Mathlib

/-!
Verification of the VK Suggester core (`vk_suggester.py`) against its
natural-language specification.

The Python module is shallowly embedded below.  Remote calls are abstracted
into oracle arguments (one function per remote method, returning the parsed
success payload or a provider error), so every definition is a pure, total,
executable Lean function.  Python dicts (which preserve insertion order and
update values in place) are modelled as association lists with the
corresponding insert operation.  Python `str.strip`, `str.lower` and `int()`
are modelled for the ASCII fragment actually exercised by the module
(Unicode digit forms and underscore separators accepted by CPython `int()`
are not modelled; no claim depends on them).
-/

namespace VKS

/-- Python-dict insertion: if the key is present, the value is updated in
place (keeping the key's position); otherwise the pair is appended. -/
def dinsert {α β : Type} [DecidableEq α] (k : α) (v : β) :
    List (α × β) → List (α × β)
  | [] => [(k, v)]
  | (k', v') :: rest =>
    if k' = k then (k, v) :: rest else (k', v') :: dinsert k v rest

/-- Python-dict lookup. -/
def dlookup {α β : Type} [DecidableEq α] (l : List (α × β)) (k : α) :
    Option β :=
  match l with
  | [] => none
  | (k', v) :: rest => if k' = k then some v else dlookup rest k

/-- Keys of an association list, in insertion order. -/
def dkeys {α β : Type} (l : List (α × β)) : List α := l.map Prod.fst

/-- Fuelled worker for `chunksP` (structural recursion on the fuel, so
that the function reduces in the kernel; fuel `l.length` always
suffices since every step consumes at least one element). -/
def chunksPAux {α : Type} (n : Nat) : Nat → List α → List (List α)
  | _, [] => []
  | 0, _ :: _ => []
  | fuel + 1, x :: xs => ((x :: xs).take (n + 1)) :: chunksPAux n fuel (xs.drop n)

/-- Chunking into slices of size `n + 1`, as Python
`for i in range(0, len(l), sz): l[i:i+sz]` with `sz = n + 1`. -/
def chunksP {α : Type} (n : Nat) (l : List α) : List (List α) :=
  chunksPAux n l.length l

/-- ASCII/C whitespace as recognised by Python `str.strip` (the Unicode
space classes additionally stripped by Python do not occur here). -/
def isSpaceChar (c : Char) : Bool :=
  c = ' ' || c = '\t' || c = '\n' || c = '\r' ||
  c = Char.ofNat 11 || c = Char.ofNat 12

/-- Model of Python `str.strip()` on the character list. -/
def trimChars (l : List Char) : List Char :=
  ((l.dropWhile isSpaceChar).reverse.dropWhile isSpaceChar).reverse

/-- Model of Python `str.strip()`. -/
def pyStrip (s : String) : String := ⟨trimChars s.data⟩

/-- Model of Python `str.lower()` (ASCII fragment). -/
def lowerStr (s : String) : String := ⟨s.data.map Char.toLower⟩

/-- Does `pat` match case-insensitively at the head of `s`? -/
def ciMatchesAt : List Char → List Char → Bool
  | [], _ => true
  | _ :: _, [] => false
  | p :: ps, c :: cs => (p.toLower == c.toLower) && ciMatchesAt ps cs

/-- First alternative (in order) matching at the head of `s`; returns its
length.  The regex alternatives used below are mutually exclusive at any
one position, so the order is immaterial. -/
def firstAltMatch (alts : List (List Char)) (s : List Char) : Option Nat :=
  match alts with
  | [] => none
  | a :: rest => if ciMatchesAt a s then some a.length else firstAltMatch rest s

/-- Fuelled left-to-right scan deleting every (non-overlapping,
case-insensitive) occurrence of any alternative, as `re.sub(pat, "", s,
flags=re.IGNORECASE)` for a literal alternation pattern.  Fuel `s.length`
suffices because every alternative used is nonempty. -/
def subAllCIAux (alts : List (List Char)) : Nat → List Char → List Char
  | 0, s => s
  | _ + 1, [] => []
  | fuel + 1, c :: cs =>
    match firstAltMatch alts (c :: cs) with
    | some n => subAllCIAux alts fuel (List.drop n (c :: cs))
    | none => c :: subAllCIAux alts fuel cs

/-- Case-insensitive global deletion of literal alternatives. -/
def subAllCI (alts : List (List Char)) (s : List Char) : List Char :=
  subAllCIAux alts s.length s

/-- Anchored case-insensitive deletion, as `re.sub("^lit", "", s, re.I)`:
at most one removal, at the start of the string. -/
def stripAnchoredCI (pat s : List Char) : List Char :=
  if ciMatchesAt pat s then s.drop pat.length else s

/-- `VKSuggester._clean_group_identifier`: the six substitution patterns
applied in source order, then `strip()`. -/
def cleanGroupIdentifier (s : String) : String :=
  let l0 := s.data
  let l1 := subAllCI ["https://vk.com/".data, "http://vk.com/".data] l0
  let l2 := subAllCI ["https://m.vk.com/".data, "http://m.vk.com/".data] l1
  let l3 := subAllCI ["vk.com/".data] l2
  let l4 := stripAnchoredCI "@".data l3
  let l5 := stripAnchoredCI "public".data l4
  let l6 := stripAnchoredCI "club".data l5
  pyStrip ⟨l6⟩

/-- Decimal value of a digit list. -/
def decDigitsVal (l : List Char) : Nat :=
  l.foldl (fun a c => a * 10 + (c.toNat - '0'.toNat)) 0

/-- Model of Python `int(s)` on an already-stripped string: an optional
sign followed by one or more ASCII digits. -/
def pyInt? (s : String) : Option Int :=
  match s.data with
  | [] => none
  | c :: rest =>
    if c = '+' then
      if !rest.isEmpty && rest.all Char.isDigit then
        some (Int.ofNat (decDigitsVal rest))
      else none
    else if c = '-' then
      if !rest.isEmpty && rest.all Char.isDigit then
        some (-(Int.ofNat (decDigitsVal rest)))
      else none
    else if (c :: rest).all Char.isDigit then
      some (Int.ofNat (decDigitsVal (c :: rest)))
    else none

/-- `PostStatus` enumeration (`vk_suggester.py`). -/
inductive PostStatus : Type
  | success
  | wall_disabled
  | suggest_disabled
  | access_denied
  | not_member
  | rate_limit
  | auth_error
  | captcha
  | group_not_found
  | network_error
  | unknown_error
deriving DecidableEq, Repr

/-- The `.value` string of each `PostStatus` member. -/
def statusValue : PostStatus → String
  | .success => "success"
  | .wall_disabled => "wall_disabled"
  | .suggest_disabled => "suggest_disabled"
  | .access_denied => "access_denied"
  | .not_member => "not_member"
  | .rate_limit => "rate_limit"
  | .auth_error => "auth_error"
  | .captcha => "captcha"
  | .group_not_found => "group_not_found"
  | .network_error => "network_error"
  | .unknown_error => "unknown_error"

/-- `PostResult` dataclass. -/
structure PostResult : Type where
  group_id : Int
  group_name : String
  status : PostStatus
  post_id : Option Int := none
  error_message : Option String := none
  error_code : Option Int := none
deriving DecidableEq, Repr

/-- `GroupInfo` dataclass. -/
structure GroupInfo : Type where
  group_id : Int
  name : String
  screen_name : String
  can_post : Bool := false
  can_suggest : Bool := false
  is_closed : Int := 0
  is_member : Bool := false
deriving DecidableEq, Repr

/-- `VKApiError`: the provider error code and message. -/
structure VKApiErrorT : Type where
  code : Int
  message : String
deriving DecidableEq, Repr

/-- VK error-code constants of `VKSuggester`. -/
def ERROR_AUTH : Int := 5

def ERROR_TOO_MANY_REQUESTS_1 : Int := 6

def ERROR_FLOOD : Int := 9

def ERROR_CAPTCHA : Int := 14

def ERROR_ACCESS_DENIED : Int := 15

def ERROR_TOO_MANY_REQUESTS_2 : Int := 29

def ERROR_WALL_ACCESS_DENIED : Int := 30

def ERROR_WALL_DISABLED : Int := 214

def ERROR_GROUP_ACCESS_DENIED : Int := 203

/-- `VKSuggester._classify_error`: the code→status lookup table (a Python
dict literal with pairwise-distinct keys; `mapping.get(code, UNKNOWN)` is
this chain of equality tests in key order). -/
def classifyError (errorCode : Int) : PostStatus :=
  if errorCode = ERROR_AUTH then .auth_error
  else if errorCode = ERROR_TOO_MANY_REQUESTS_1 then .rate_limit
  else if errorCode = ERROR_FLOOD then .rate_limit
  else if errorCode = ERROR_CAPTCHA then .captcha
  else if errorCode = ERROR_ACCESS_DENIED then .access_denied
  else if errorCode = ERROR_TOO_MANY_REQUESTS_2 then .rate_limit
  else if errorCode = ERROR_WALL_ACCESS_DENIED then .access_denied
  else if errorCode = ERROR_WALL_DISABLED then .wall_disabled
  else if errorCode = ERROR_GROUP_ACCESS_DENIED then .group_not_found
  else .unknown_error

/-- Outcome of one network attempt inside `_api_request`, as seen after
`response.json()`: a transport failure (`requests.RequestException`), a
provider `error` object, or the parsed `response` payload. -/
inductive AttemptOutcome (ρ : Type) : Type
  | netError (msg : String)
  | apiError (code : Int) (msg : String)
  | success (resp : ρ)
deriving DecidableEq

/-- Membership of a code in the retried throttling tuple
`(ERROR_TOO_MANY_REQUESTS_1, ERROR_TOO_MANY_REQUESTS_2, ERROR_FLOOD)`. -/
def isRateLimitCode (code : Int) : Bool :=
  code == ERROR_TOO_MANY_REQUESTS_1 || code == ERROR_TOO_MANY_REQUESTS_2 ||
  code == ERROR_FLOOD

/-- An attempt outcome that `_api_request` retries past (when attempts
remain): a transport failure or a throttling provider error. -/
def isTransient {ρ : Type} : AttemptOutcome ρ → Bool
  | .success _ => false
  | .netError _ => true
  | .apiError code _ => isRateLimitCode code

/-- All attempts before index `k` are transient, so the loop reaches
attempt `k`. -/
def reachedAt {ρ : Type} (oracle : Nat → AttemptOutcome ρ) (k : Nat) : Prop :=
  ∀ j, j < k → isTransient (oracle j) = true

instance {ε α : Type} [DecidableEq ε] [DecidableEq α] :
    DecidableEq (Except ε α) := fun a b =>
  match a, b with
  | .ok x, .ok y =>
    if h : x = y then .isTrue (by rw [h]) else .isFalse (by simp [h])
  | .error x, .error y =>
    if h : x = y then .isTrue (by rw [h]) else .isFalse (by simp [h])
  | .ok _, .error _ => .isFalse (by simp)
  | .error _, .ok _ => .isFalse (by simp)

/-- Observable outcome of `_api_request`: the returned payload or the
raised `VKApiError`, the number of network attempts made, and the backoff
sleeps performed (in seconds, in order). -/
structure ApiCallResult (ρ : Type) : Type where
  outcome : Except VKApiErrorT ρ
  attempts : Nat
  waits : List Nat
deriving DecidableEq

/-- The `for attempt in range(retry_count)` body of `_api_request`;
`lastIdx = retry_count - 1` so `attempt < lastIdx` is the source's
`attempt < retry_count - 1`.  The `attempt` outcome comes from the
oracle. -/
def apiRequestGo {ρ : Type} (oracle : Nat → AttemptOutcome ρ) (lastIdx : Nat) :
    List Nat → ApiCallResult ρ
  | [] => ⟨.error ⟨-1, "Превышено количество попыток"⟩, 0, []⟩
  | attempt :: rest =>
    match oracle attempt with
    | .success r => ⟨.ok r, 1, []⟩
    | .apiError code msg =>
      if isRateLimitCode code = true then
        if attempt < lastIdx then
          let r2 := apiRequestGo oracle lastIdx rest
          ⟨r2.outcome, r2.attempts + 1, (attempt + 1) * 2 :: r2.waits⟩
        else ⟨.error ⟨code, msg⟩, 1, []⟩
      else ⟨.error ⟨code, msg⟩, 1, []⟩
    | .netError m =>
      if attempt < lastIdx then
        let r2 := apiRequestGo oracle lastIdx rest
        ⟨r2.outcome, r2.attempts + 1, 2 :: r2.waits⟩
      else ⟨.error ⟨-1, "Сетевая ошибка: " ++ m⟩, 1, []⟩

/-- `VKSuggester._api_request` with `retry_count` attempts. -/
def apiRequest {ρ : Type} (oracle : Nat → AttemptOutcome ρ)
    (retryCount : Nat) : ApiCallResult ρ :=
  apiRequestGo oracle (retryCount - 1) (List.range retryCount)

/-- One parsed entry of a `groups.getById` response during resolution:
`group["id"]` and `group.get("screen_name", "")`. -/
structure ResolvedGroup : Type where
  id : Int
  screen_name : String
deriving DecidableEq, Repr

/-- First pass of `resolve_group_ids`: strip, skip empties, clean, and
either record `abs(int(cleaned))` under the cleaned key or queue the
cleaned identifier for batch lookup. -/
def passOneStep (acc : List (String × Int) × List String) (s : String) :
    List (String × Int) × List String :=
  let t := pyStrip s
  if t = "" then acc
  else
    let c := cleanGroupIdentifier t
    match pyInt? c with
    | some n => (dinsert c (Int.ofNat n.natAbs) acc.1, acc.2)
    | none => (acc.1, acc.2 ++ [c])

/-- The numeric pass over the whole identifier list. -/
def resolvePassOne (ids : List String) : List (String × Int) × List String :=
  ids.foldl passOneStep ([], [])

/-- The matching step of `resolve_group_ids`: the first identifier of the
batch whose lowercase form equals the group's lowercase screen name, or
which equals the stringified group id. -/
def findOrig (g : ResolvedGroup) (batch : List String) : Option String :=
  batch.find? fun orig =>
    lowerStr orig == lowerStr g.screen_name || toString g.id == orig

/-- One `groups.getById` batch of the resolution loop: on success, walk the
returned groups and record each under its matched originating identifier;
on `VKApiError`, log and drop the whole batch. -/
def resolveBatchStep
    (lookupO : List String → Except VKApiErrorT (List ResolvedGroup))
    (acc : List (String × Int)) (batch : List String) : List (String × Int) :=
  match lookupO batch with
  | .ok groups =>
    groups.foldl (fun a g =>
      match findOrig g batch with
      | some orig => dinsert orig g.id a
      | none => a) acc
  | .error _ => acc

/-- `VKSuggester.resolve_group_ids`: numeric pass, then the queued
identifiers in batches of 25. -/
def resolveGroupIds
    (lookupO : List String → Except VKApiErrorT (List ResolvedGroup))
    (ids : List String) : List (String × Int) :=
  let p := resolvePassOne ids
  (chunksP 24 p.2).foldl (resolveBatchStep lookupO) p.1

/-- The cleaned forms of the nonempty input identifiers, in input order. -/
def cleanedSeq (ids : List String) : List String :=
  ids.filterMap fun s =>
    if pyStrip s = "" then none else some (cleanGroupIdentifier (pyStrip s))

/-- One parsed entry of a `groups.getById` response during metadata fetch:
the `id` field plus the optional fields read with `.get`. -/
structure RawGroup : Type where
  id : Int
  name : Option String := none
  screen_name : Option String := none
  can_post : Int := 0
  can_suggest : Int := 0
  is_closed : Int := 0
  is_member : Int := 0
deriving DecidableEq, Repr

/-- `GroupInfo` built from one response entry in `get_groups_info`. -/
def groupInfoOfRaw (g : RawGroup) : GroupInfo :=
  { group_id := g.id
    name := g.name.getD ("Группа " ++ toString g.id)
    screen_name := g.screen_name.getD (toString g.id)
    can_post := g.can_post == 1
    can_suggest := g.can_suggest == 1
    is_closed := g.is_closed
    is_member := g.is_member == 1 }

/-- The placeholder record created for each id of a failed batch. -/
def placeholderInfo (gid : Int) : GroupInfo :=
  { group_id := gid
    name := "Группа " ++ toString gid
    screen_name := toString gid
    can_post := false
    can_suggest := false
    is_closed := 0
    is_member := false }

/-- Recording one response entry: `result[gid] = GroupInfo(...)`. -/
def infoStep (a : List (Int × GroupInfo)) (g : RawGroup) :
    List (Int × GroupInfo) :=
  dinsert g.id (groupInfoOfRaw g) a

/-- The failure-branch loop body: `if gid not in result: result[gid] =
GroupInfo(placeholder)`. -/
def placeStep (a : List (Int × GroupInfo)) (gid : Int) :
    List (Int × GroupInfo) :=
  match dlookup a gid with
  | some _ => a
  | none => dinsert gid (placeholderInfo gid) a

/-- One batch of `get_groups_info`: on success record every returned
group; on `VKApiError` give every id of the batch not already present a
placeholder. -/
def processInfoBatch
    (infoO : List Int → Except VKApiErrorT (List RawGroup))
    (acc : List (Int × GroupInfo)) (b : List Int) : List (Int × GroupInfo) :=
  match infoO b with
  | .ok groups => groups.foldl infoStep acc
  | .error _ => b.foldl placeStep acc

/-- `VKSuggester.get_groups_info`: batches of 500. -/
def getGroupsInfo (infoO : List Int → Except VKApiErrorT (List RawGroup))
    (ids : List Int) : List (Int × GroupInfo) :=
  (chunksP 499 ids).foldl (processInfoBatch infoO) []

/-- Parsed `photos.getWallUploadServer` payload: `.get("upload_url")`. -/
structure UploadServerResp : Type where
  upload_url : Option String
deriving DecidableEq

/-- Parsed JSON body of the direct multipart POST to the upload URL; the
fields are read with `.get("photo")` / `["server"]` / `["hash"]`, so each
may be absent (a missing `server`/`hash` raises `KeyError`, caught by the
enclosing `except`). -/
structure UploadHTTPResp : Type where
  photo : Option String
  server : Option String
  hash : Option String
deriving DecidableEq

/-- First element of a `photos.saveWallPhoto` response. -/
structure SavedPhoto : Type where
  owner_id : Int
  id : Int
  access_key : Option String := none
deriving DecidableEq

/-- `VKSuggester.upload_photo`.  The three remote phases are supplied as
oracles: the `getWallUploadServer` call, the raw multipart POST (whose
transport errors and JSON-decoding failures are the `Except.error` case),
and the `saveWallPhoto` call.  Every raised exception is caught by the
function's `except Exception` and turned into `None`. -/
def uploadPhoto
    (serverO : Except VKApiErrorT UploadServerResp)
    (httpO : Except String UploadHTTPResp)
    (saveO : Except VKApiErrorT (List SavedPhoto)) : Option String :=
  match serverO with
  | .error _ => none
  | .ok sr =>
    match sr.upload_url with
    | none => none
    | some _ =>
      match httpO with
      | .error _ => none
      | .ok up =>
        match up.photo with
        | none => none
        | some p =>
          if p = "" ∨ p = "[]" then none
          else
            match up.server, up.hash with
            | some _, some _ =>
              match saveO with
              | .error _ => none
              | .ok saved =>
                match saved with
                | [] => none
                | ph :: _ =>
                  let key := ph.access_key.getD ""
                  if key ≠ "" then
                    some ("photo" ++ toString ph.owner_id ++ "_" ++
                      toString ph.id ++ "_" ++ key)
                  else
                    some ("photo" ++ toString ph.owner_id ++ "_" ++
                      toString ph.id)
            | _, _ => none

/-- `VKSuggester.post_to_suggestion`: the `wall.post` outcome for this
group is supplied as an oracle value (`response.get("post_id")` on
success).  `if post_id:` is Python truthiness, so an absent or zero
`post_id` takes the `unknown_error` branch. -/
def postToSuggestion (api : Except VKApiErrorT (Option Int))
    (group_id : Int) (group_name : String) : PostResult :=
  match api with
  | .ok resp =>
    match resp with
    | some pid =>
      if pid = 0 then
        { group_id := group_id, group_name := group_name,
          status := .unknown_error, post_id := none,
          error_message := some "Не получен post_id", error_code := none }
      else
        { group_id := group_id, group_name := group_name,
          status := .success, post_id := some pid,
          error_message := none, error_code := none }
    | none =>
      { group_id := group_id, group_name := group_name,
        status := .unknown_error, post_id := none,
        error_message := some "Не получен post_id", error_code := none }
  | .error e =>
    { group_id := group_id, group_name := group_name,
      status := classifyError e.code, post_id := none,
      error_message := some e.message, error_code := some e.code }

/-- The eligibility gate of `process_groups`:
`info and not info.can_suggest and not info.can_post`. -/
def shouldSkip (gi : Option GroupInfo) : Bool :=
  match gi with
  | some g => !g.can_suggest && !g.can_post
  | none => false

/-- `info.name if info else f"Группа {gid}"`. -/
def groupDisplayName (gi : Option GroupInfo) (gid : Int) : String :=
  match gi with
  | some g => g.name
  | none => "Группа " ++ toString gid

/-- The `suggest_disabled` result emitted without a network call. -/
def suggestDisabledResult (gid : Int) (name : String) : PostResult :=
  { group_id := gid, group_name := name, status := .suggest_disabled,
    post_id := none, error_message := some "Предложка/стена закрыта",
    error_code := none }

/-- The result `process_groups` produces for one target. -/
def processStep (info : List (Int × GroupInfo))
    (postO : Int → Except VKApiErrorT (Option Int)) (t : String × Int) :
    PostResult :=
  let gi := dlookup info t.2
  if shouldSkip gi = true then suggestDisabledResult t.2 (groupDisplayName gi t.2)
  else postToSuggestion (postO t.2) t.2 (groupDisplayName gi t.2)

/-- The dispatch loop of `process_groups` over the resolved targets.
Returns the result list and the list of group ids for which
`post_to_suggestion` was actually invoked (in call order).  On an
`auth_error` result with `stop_on_auth_error`, the result is appended and
the loop breaks. -/
def processLoop (info : List (Int × GroupInfo))
    (postO : Int → Except VKApiErrorT (Option Int)) (stop : Bool) :
    List (String × Int) → List PostResult × List Int
  | [] => ([], [])
  | t :: rest =>
    let gi := dlookup info t.2
    if shouldSkip gi = true then
      let rd := processLoop info postO stop rest
      (suggestDisabledResult t.2 (groupDisplayName gi t.2) :: rd.1, rd.2)
    else
      let r := postToSuggestion (postO t.2) t.2 (groupDisplayName gi t.2)
      if stop = true ∧ r.status = PostStatus.auth_error then ([r], [t.2])
      else
        let rd := processLoop info postO stop rest
        (r :: rd.1, t.2 :: rd.2)

/-- `VKSuggester.process_groups`: resolve, early-return on an empty
resolution, fetch metadata for the resolved ids (`list(resolved.values())`
is the `map Prod.snd`), then dispatch. -/
def processGroups
    (lookupO : List String → Except VKApiErrorT (List ResolvedGroup))
    (infoO : List Int → Except VKApiErrorT (List RawGroup))
    (postO : Int → Except VKApiErrorT (Option Int))
    (ids : List String) (stopOnAuthError : Bool) :
    List PostResult × List Int :=
  if (resolveGroupIds lookupO ids).isEmpty then ([], [])
  else
    processLoop
      (getGroupsInfo infoO ((resolveGroupIds lookupO ids).map Prod.snd))
      postO stopOnAuthError (resolveGroupIds lookupO ids)

/-- The summary dict of `get_results_summary`. -/
structure ResultsSummary : Type where
  total : Nat
  success : Nat
  failed : Nat
  by_status : List (String × Nat)
deriving DecidableEq

/-- `summary["by_status"][name] = summary["by_status"].get-or-0 + 1`. -/
def bumpCount (k : String) : List (String × Nat) → List (String × Nat)
  | [] => [(k, 1)]
  | (k', c) :: rest =>
    if k' = k then (k', c + 1) :: rest else (k', c) :: bumpCount k rest

/-- Sum of the per-status counters. -/
def sumCounts (l : List (String × Nat)) : Nat := (l.map Prod.snd).sum

/-- The loop body of `get_results_summary`. -/
def summaryStep (s : ResultsSummary) (r : PostResult) : ResultsSummary :=
  let bs := bumpCount (statusValue r.status) s.by_status
  if r.status = PostStatus.success then
    { s with by_status := bs, success := s.success + 1 }
  else
    { s with by_status := bs, failed := s.failed + 1 }

/-- `VKSuggester.get_results_summary`. -/
def getResultsSummary (results : List PostResult) : ResultsSummary :=
  results.foldl summaryStep
    { total := results.length, success := 0, failed := 0, by_status := [] }

/-! Association-list (Python dict) lemmas. -/

theorem dlookup_dinsert {α β : Type} [DecidableEq α] (k k' : α) (v : β)
    (l : List (α × β)) :
    dlookup (dinsert k v l) k' = if k' = k then some v else dlookup l k' := by
  induction l with
  | nil =>
    simp only [dinsert, dlookup]
    by_cases h : k = k'
    · subst h; simp
    · rw [if_neg h, if_neg fun hh => h hh.symm]
  | cons p rest ih =>
    obtain ⟨k₀, v₀⟩ := p
    by_cases h : k₀ = k
    · subst h
      simp only [dinsert, if_pos rfl, dlookup]
      by_cases h' : k₀ = k'
      · subst h'; simp
      · have h'' : ¬k' = k₀ := fun hh => h' hh.symm
        simp only [if_neg h', if_neg h'']
    · simp only [dinsert, if_neg h, dlookup]
      by_cases h' : k₀ = k'
      · subst h'
        rw [if_pos rfl, if_neg h, if_pos rfl]
      · simp only [if_neg h']
        rw [ih]

theorem mem_dinsert {α β : Type} [DecidableEq α] {k : α} {v : β}
    {l : List (α × β)} {p : α × β} (hp : p ∈ dinsert k v l) :
    p = (k, v) ∨ p ∈ l := by
  induction l with
  | nil => simpa [dinsert] using hp
  | cons q rest ih =>
    obtain ⟨k₀, v₀⟩ := q
    by_cases h : k₀ = k
    · simp only [dinsert, if_pos h] at hp
      rcases List.mem_cons.mp hp with h1 | h1
      · exact Or.inl h1
      · exact Or.inr (List.mem_cons_of_mem _ h1)
    · simp only [dinsert, if_neg h] at hp
      rcases List.mem_cons.mp hp with h1 | h1
      · exact Or.inr (h1 ▸ List.mem_cons_self _ _)
      · rcases ih h1 with h2 | h2
        · exact Or.inl h2
        · exact Or.inr (List.mem_cons_of_mem _ h2)

theorem dkeys_dinsert {α β : Type} [DecidableEq α] (k : α) (v : β)
    (l : List (α × β)) :
    dkeys (dinsert k v l) = dkeys l ∨
    dkeys (dinsert k v l) = dkeys l ++ [k] := by
  induction l with
  | nil => right; simp [dinsert, dkeys]
  | cons q rest ih =>
    obtain ⟨k₀, v₀⟩ := q
    by_cases h : k₀ = k
    · left; subst h; simp [dinsert, dkeys]
    · rcases ih with h1 | h1
      · left; simp [dinsert, if_neg h, dkeys] at h1 ⊢; exact h1
      · right; simp [dinsert, if_neg h, dkeys] at h1 ⊢; exact h1

theorem dinsert_append_of_not_mem {α β : Type} [DecidableEq α] {k : α}
    (v : β) {A : List (α × β)} (B : List (α × β)) (hk : k ∉ dkeys A) :
    dinsert k v (A ++ B) = A ++ dinsert k v B := by
  induction A with
  | nil => simp
  | cons q rest ih =>
    obtain ⟨k₀, v₀⟩ := q
    simp only [dkeys, List.map_cons, List.mem_cons] at hk
    push_neg at hk
    have hne : k₀ ≠ k := fun h => hk.1 h.symm
    rw [List.cons_append]
    show dinsert k v ((k₀, v₀) :: (rest ++ B)) = _
    simp only [dinsert, if_neg hne]
    rw [ih (by simpa [dkeys] using hk.2), List.cons_append]

theorem dlookup_append_some {α β : Type} [DecidableEq α] {A : List (α × β)}
    (B : List (α × β)) {k : α} {v : β} (h : dlookup A k = some v) :
    dlookup (A ++ B) k = some v := by
  induction A with
  | nil => simp [dlookup] at h
  | cons q rest ih =>
    obtain ⟨k₀, v₀⟩ := q
    simp only [dlookup] at h
    by_cases hk : k₀ = k
    · simp only [List.cons_append, dlookup, if_pos hk]
      rwa [if_pos hk] at h
    · simp only [List.cons_append, dlookup, if_neg hk]
      rw [if_neg hk] at h
      exact ih h

theorem dlookup_append_none {α β : Type} [DecidableEq α] {A : List (α × β)}
    (B : List (α × β)) {k : α} (h : dlookup A k = none) :
    dlookup (A ++ B) k = dlookup B k := by
  induction A with
  | nil => simp
  | cons q rest ih =>
    obtain ⟨k₀, v₀⟩ := q
    simp only [dlookup] at h
    by_cases hk : k₀ = k
    · rw [if_pos hk] at h; exact absurd h (by simp)
    · simp only [List.cons_append, dlookup, if_neg hk]
      rw [if_neg hk] at h
      exact ih h

theorem dlookup_eq_none_of {α β : Type} [DecidableEq α] {l : List (α × β)}
    {k : α} (h : ∀ p ∈ l, p.1 ≠ k) : dlookup l k = none := by
  induction l with
  | nil => rfl
  | cons q rest ih =>
    obtain ⟨k₀, v₀⟩ := q
    simp only [dlookup]
    rw [if_neg (h (k₀, v₀) (List.mem_cons_self _ _))]
    exact ih fun p hp => h p (List.mem_cons_of_mem _ hp)

theorem dlookup_mem {α β : Type} [DecidableEq α] {l : List (α × β)} {k : α}
    {v : β} (h : dlookup l k = some v) : (k, v) ∈ l := by
  induction l with
  | nil => simp [dlookup] at h
  | cons q rest ih =>
    obtain ⟨k₀, v₀⟩ := q
    simp only [dlookup] at h
    by_cases hk : k₀ = k
    · rw [if_pos hk] at h
      subst hk
      obtain rfl : v₀ = v := by injection h
      exact List.mem_cons_self _ _
    · rw [if_neg hk] at h
      exact List.mem_cons_of_mem _ (ih h)

/-- Invariant preservation through `List.foldl`. -/
theorem foldl_inv {α β : Type} (P : β → Prop) (step : β → α → β)
    (l : List α) (acc : β) (h : P acc)
    (hstep : ∀ a x, x ∈ l → P a → P (step a x)) : P (l.foldl step acc) := by
  induction l generalizing acc with
  | nil => simpa using h
  | cons x rest ih =>
    simp only [List.foldl_cons]
    exact ih (step acc x) (hstep acc x (List.mem_cons_self _ _) h)
      fun a y hy ha => hstep a y (List.mem_cons_of_mem _ hy) ha

theorem chunksPAux_sublist {α : Type} (n fuel : Nat) (l : List α) :
    ∀ b ∈ chunksPAux n fuel l, b.Sublist l := by
  induction fuel generalizing l with
  | zero => intro b hb; cases l <;> simp [chunksPAux] at hb
  | succ f ih =>
    intro b hb
    cases l with
    | nil => simp [chunksPAux] at hb
    | cons x xs =>
      rw [chunksPAux] at hb
      rcases List.mem_cons.mp hb with h | h
      · exact h ▸ List.take_sublist _ _
      · exact (ih (xs.drop n) b h).trans
          ((List.drop_sublist n xs).trans (List.sublist_cons_self x xs))

/-- Every chunk is a sublist of the original list. -/
theorem chunksP_sublist {α : Type} (n : Nat) (l : List α) :
    ∀ b ∈ chunksP n l, b.Sublist l :=
  chunksPAux_sublist n l.length l

theorem chunksP_mem {α : Type} {n : Nat} {l b : List α} (hb : b ∈ chunksP n l)
    {x : α} (hx : x ∈ b) : x ∈ l :=
  (chunksP_sublist n l b hb).mem hx

/-! Summary lemmas. -/

theorem sumCounts_bumpCount (k : String) (l : List (String × Nat)) :
    sumCounts (bumpCount k l) = sumCounts l + 1 := by
  induction l with
  | nil => simp [bumpCount, sumCounts]
  | cons q rest ih =>
    obtain ⟨k₀, c₀⟩ := q
    by_cases h : k₀ = k
    · simp [bumpCount, if_pos h, sumCounts]; omega
    · simp only [bumpCount, if_neg h, sumCounts, List.map_cons, List.sum_cons]
      simp only [sumCounts] at ih
      omega

theorem summary_fold (l : List PostResult) (acc : ResultsSummary) :
    (l.foldl summaryStep acc).total = acc.total ∧
    (l.foldl summaryStep acc).success + (l.foldl summaryStep acc).failed =
      acc.success + acc.failed + l.length ∧
    sumCounts (l.foldl summaryStep acc).by_status =
      sumCounts acc.by_status + l.length := by
  induction l generalizing acc with
  | nil => simp
  | cons r rest ih =>
    simp only [List.foldl_cons, List.length_cons]
    obtain ⟨h1, h2, h3⟩ := ih (summaryStep acc r)
    have hstep : (summaryStep acc r).total = acc.total ∧
        (summaryStep acc r).success + (summaryStep acc r).failed =
          acc.success + acc.failed + 1 ∧
        sumCounts (summaryStep acc r).by_status =
          sumCounts acc.by_status + 1 := by
      simp only [summaryStep]
      by_cases h : r.status = PostStatus.success
      · simp [if_pos h, sumCounts_bumpCount]; omega
      · simp [if_neg h, sumCounts_bumpCount]; omega
    exact ⟨h1.trans hstep.1, by omega, by omega⟩

/-! Resolver lemmas. -/

theorem passOneStep_skip (acc : List (String × Int) × List String)
    (s : String) (ht : pyStrip s = "") : passOneStep acc s = acc := by
  unfold passOneStep
  rw [if_pos ht]

theorem passOneStep_num (acc : List (String × Int) × List String)
    (s : String) (ht : ¬pyStrip s = "") (n : Int)
    (hc : pyInt? (cleanGroupIdentifier (pyStrip s)) = some n) :
    passOneStep acc s =
      (dinsert (cleanGroupIdentifier (pyStrip s)) (Int.ofNat n.natAbs) acc.1,
        acc.2) := by
  unfold passOneStep
  rw [if_neg ht]
  dsimp only
  rw [hc]

theorem passOneStep_handle (acc : List (String × Int) × List String)
    (s : String) (ht : ¬pyStrip s = "")
    (hc : pyInt? (cleanGroupIdentifier (pyStrip s)) = none) :
    passOneStep acc s =
      (acc.1, acc.2 ++ [cleanGroupIdentifier (pyStrip s)]) := by
  unfold passOneStep
  rw [if_neg ht]
  dsimp only
  rw [hc]

theorem passOne_fst_parses (ids : List String)
    (acc : List (String × Int) × List String)
    (hacc : ∀ p ∈ acc.1, ∃ n, pyInt? p.1 = some n ∧ p.2 = Int.ofNat n.natAbs) :
    ∀ p ∈ (ids.foldl passOneStep acc).1,
      ∃ n, pyInt? p.1 = some n ∧ p.2 = Int.ofNat n.natAbs := by
  induction ids generalizing acc with
  | nil => simpa using hacc
  | cons s rest ih =>
    simp only [List.foldl_cons]
    by_cases ht : pyStrip s = ""
    · rw [passOneStep_skip acc s ht]
      exact ih acc hacc
    cases hc : pyInt? (cleanGroupIdentifier (pyStrip s)) with
    | none =>
      rw [passOneStep_handle acc s ht hc]
      exact ih _ hacc
    | some n =>
      rw [passOneStep_num acc s ht n hc]
      refine ih _ ?_
      intro p hp
      rcases mem_dinsert hp with h | h
      · subst h; exact ⟨n, hc, rfl⟩
      · exact hacc p h

theorem passOne_snd_nonparse (ids : List String)
    (acc : List (String × Int) × List String)
    (hacc : ∀ s ∈ acc.2, pyInt? s = none) :
    ∀ s ∈ (ids.foldl passOneStep acc).2, pyInt? s = none := by
  induction ids generalizing acc with
  | nil => simpa using hacc
  | cons s rest ih =>
    simp only [List.foldl_cons]
    by_cases ht : pyStrip s = ""
    · rw [passOneStep_skip acc s ht]
      exact ih acc hacc
    cases hc : pyInt? (cleanGroupIdentifier (pyStrip s)) with
    | none =>
      rw [passOneStep_handle acc s ht hc]
      refine ih _ ?_
      intro s' hs'
      rcases List.mem_append.mp hs' with h | h
      · exact hacc s' h
      · rw [List.mem_singleton.mp h]; exact hc
    | some n =>
      rw [passOneStep_num acc s ht n hc]
      exact ih _ hacc

theorem cleanedSeq_cons (s : String) (rest : List String) :
    cleanedSeq (s :: rest) =
      if pyStrip s = "" then cleanedSeq rest
      else cleanGroupIdentifier (pyStrip s) :: cleanedSeq rest := by
  unfold cleanedSeq
  rw [List.filterMap_cons]
  by_cases ht : pyStrip s = ""
  · rw [if_pos ht, if_pos ht]
  · rw [if_neg ht, if_neg ht]

theorem passOne_keys_sublist (ids : List String)
    (acc : List (String × Int) × List String) :
    List.Sublist (dkeys (ids.foldl passOneStep acc).1)
      (dkeys acc.1 ++ cleanedSeq ids) := by
  induction ids generalizing acc with
  | nil => simp [cleanedSeq]
  | cons s rest ih =>
    simp only [List.foldl_cons]
    rw [cleanedSeq_cons]
    by_cases ht : pyStrip s = ""
    · rw [if_pos ht, passOneStep_skip acc s ht]
      exact ih acc
    rw [if_neg ht]
    cases hc : pyInt? (cleanGroupIdentifier (pyStrip s)) with
    | none =>
      rw [passOneStep_handle acc s ht hc]
      refine (ih _).trans ?_
      exact (List.sublist_cons_self _ _).append_left (dkeys acc.1)
    | some n =>
      rw [passOneStep_num acc s ht n hc]
      rcases dkeys_dinsert (cleanGroupIdentifier (pyStrip s))
        (Int.ofNat n.natAbs) acc.1 with hk | hk
      · refine (ih _).trans ?_
        show List.Sublist
          (dkeys (dinsert (cleanGroupIdentifier (pyStrip s))
            (Int.ofNat n.natAbs) acc.1) ++ cleanedSeq rest) _
        rw [hk]
        exact (List.sublist_cons_self _ _).append_left (dkeys acc.1)
      · refine (ih _).trans ?_
        show List.Sublist
          (dkeys (dinsert (cleanGroupIdentifier (pyStrip s))
            (Int.ofNat n.natAbs) acc.1) ++ cleanedSeq rest) _
        rw [hk, List.append_assoc, List.singleton_append]

theorem resolveInner_split (batch : List String)
    (groups : List ResolvedGroup) (A B : List (String × Int))
    (hA : ∀ p ∈ A, (pyInt? p.1).isSome = true)
    (hB : ∀ p ∈ B, pyInt? p.1 = none)
    (hbatch : ∀ s ∈ batch, pyInt? s = none) :
    ∃ B', groups.foldl (fun a g =>
        match findOrig g batch with
        | some orig => dinsert orig g.id a
        | none => a) (A ++ B) = A ++ B' ∧
      ∀ p ∈ B', pyInt? p.1 = none := by
  induction groups generalizing B with
  | nil => exact ⟨B, rfl, hB⟩
  | cons g rest ih =>
    simp only [List.foldl_cons]
    cases hfo : findOrig g batch with
    | none => exact ih B hB
    | some orig =>
      have horig : orig ∈ batch :=
        List.mem_of_find?_eq_some (by simpa [findOrig] using hfo)
      have hnp : pyInt? orig = none := hbatch orig horig
      have hnotA : orig ∉ dkeys A := by
        intro hmem
        obtain ⟨p, hp, hfst⟩ := List.mem_map.mp hmem
        have hsome := hA p hp
        rw [hfst, hnp] at hsome
        cases hsome
      dsimp only
      rw [dinsert_append_of_not_mem g.id B hnotA]
      refine ih (dinsert orig g.id B) ?_
      intro p hp
      rcases mem_dinsert hp with h | h
      · subst h; exact hnp
      · exact hB p h

theorem resolveBatches_split
    (L : List String → Except VKApiErrorT (List ResolvedGroup))
    (bs : List (List String)) (A B : List (String × Int))
    (hA : ∀ p ∈ A, (pyInt? p.1).isSome = true)
    (hB : ∀ p ∈ B, pyInt? p.1 = none)
    (hbs : ∀ b ∈ bs, ∀ s ∈ b, pyInt? s = none) :
    ∃ B', bs.foldl (resolveBatchStep L) (A ++ B) = A ++ B' ∧
      ∀ p ∈ B', pyInt? p.1 = none := by
  induction bs generalizing B with
  | nil => exact ⟨B, rfl, hB⟩
  | cons b rest ih =>
    simp only [List.foldl_cons]
    have hbatch := hbs b (List.mem_cons_self _ _)
    have htail : ∀ b' ∈ rest, ∀ s ∈ b', pyInt? s = none :=
      fun b' hb' => hbs b' (List.mem_cons_of_mem _ hb')
    have hstep : ∃ B1, resolveBatchStep L (A ++ B) b = A ++ B1 ∧
        ∀ p ∈ B1, pyInt? p.1 = none := by
      unfold resolveBatchStep
      cases hLo : L b with
      | error e => exact ⟨B, rfl, hB⟩
      | ok groups => exact resolveInner_split b groups A B hA hB hbatch
    obtain ⟨B1, hEq, hB1⟩ := hstep
    rw [hEq]
    exact ih B1 hB1 htail

theorem resolveGroupIds_split
    (L : List String → Except VKApiErrorT (List ResolvedGroup))
    (ids : List String) :
    ∃ B, resolveGroupIds L ids = (resolvePassOne ids).1 ++ B ∧
      ∀ p ∈ B, pyInt? p.1 = none := by
  have hA : ∀ p ∈ (resolvePassOne ids).1, (pyInt? p.1).isSome = true := by
    intro p hp
    obtain ⟨n, hn, _⟩ := passOne_fst_parses ids ([], []) (by simp) p hp
    rw [hn]; rfl
  have hsnd : ∀ s ∈ (resolvePassOne ids).2, pyInt? s = none :=
    passOne_snd_nonparse ids ([], []) (by simp)
  have hbs : ∀ b ∈ chunksP 24 (resolvePassOne ids).2, ∀ s ∈ b,
      pyInt? s = none :=
    fun b hb s hs => hsnd s (chunksP_mem hb hs)
  obtain ⟨B, hEq, hB⟩ := resolveBatches_split L
    (chunksP 24 (resolvePassOne ids).2) (resolvePassOne ids).1 [] hA
    (by simp) hbs
  rw [List.append_nil] at hEq
  exact ⟨B, hEq, hB⟩

/-! Retry-loop lemmas. -/

theorem go_attempts_le {ρ : Type} (O : Nat → AttemptOutcome ρ) (last : Nat)
    (l : List Nat) : (apiRequestGo O last l).attempts ≤ l.length := by
  induction l with
  | nil => simp [apiRequestGo]
  | cons a rest ih =>
    cases h : O a with
    | success r => simp [apiRequestGo, h]
    | apiError c m =>
      simp only [apiRequestGo, h, List.length_cons]
      by_cases hr : isRateLimitCode c = true
      · by_cases hlt : a < last
        · simp only [if_pos hr, if_pos hlt]; simpa using ih
        · simp only [if_pos hr, if_neg hlt]; simp
      · simp only [if_neg hr]; simp
    | netError m =>
      simp only [apiRequestGo, h, List.length_cons]
      by_cases hlt : a < last
      · simp only [if_pos hlt]; simpa using ih
      · simp only [if_neg hlt]; simp

theorem go_attempts_pos {ρ : Type} (O : Nat → AttemptOutcome ρ) (last a : Nat)
    (rest : List Nat) : 1 ≤ (apiRequestGo O last (a :: rest)).attempts := by
  cases h : O a with
  | success r => simp [apiRequestGo, h]
  | apiError c m =>
    simp only [apiRequestGo, h]
    by_cases hr : isRateLimitCode c = true
    · by_cases hlt : a < last
      · simp only [if_pos hr, if_pos hlt]; simp
      · simp only [if_pos hr, if_neg hlt]; simp
    · simp only [if_neg hr]; simp
  | netError m =>
    simp only [apiRequestGo, h]
    by_cases hlt : a < last
    · simp only [if_pos hlt]; simp
    · simp only [if_neg hlt]; simp

/-- The backoff sleep `_api_request` performs before retrying past the
given attempt outcome: a fixed 2 seconds for a transport failure,
`(attempt + 1) * 2` seconds for a throttling provider error. -/
def waitOf {ρ : Type} (o : AttemptOutcome ρ) (a : Nat) : Nat :=
  match o with
  | .netError _ => 2
  | _ => (a + 1) * 2

theorem go_transient {ρ : Type} (O : Nat → AttemptOutcome ρ) (last a : Nat)
    (rest : List Nat) (ht : isTransient (O a) = true) (hlt : a < last) :
    apiRequestGo O last (a :: rest) =
      ⟨(apiRequestGo O last rest).outcome,
        (apiRequestGo O last rest).attempts + 1,
        waitOf (O a) a :: (apiRequestGo O last rest).waits⟩ := by
  cases h : O a with
  | success r => rw [h] at ht; simp [isTransient] at ht
  | apiError c m =>
    rw [h] at ht
    simp only [isTransient] at ht
    simp only [apiRequestGo, h, if_pos ht, if_pos hlt, waitOf]
  | netError m =>
    simp only [apiRequestGo, h, if_pos hlt, waitOf]

theorem go_api_fail {ρ : Type} (O : Nat → AttemptOutcome ρ) (last a : Nat)
    (rest : List Nat) (c : Int) (m : String) (h : O a = .apiError c m)
    (hr : isRateLimitCode c = false) :
    apiRequestGo O last (a :: rest) = ⟨.error ⟨c, m⟩, 1, []⟩ := by
  simp only [apiRequestGo, h]
  rw [if_neg (by rw [hr]; exact Bool.false_ne_true)]

theorem go_throttle_last {ρ : Type} (O : Nat → AttemptOutcome ρ) (last a : Nat)
    (rest : List Nat) (c : Int) (m : String) (h : O a = .apiError c m)
    (hr : isRateLimitCode c = true) (hge : ¬a < last) :
    apiRequestGo O last (a :: rest) = ⟨.error ⟨c, m⟩, 1, []⟩ := by
  simp only [apiRequestGo, h, if_pos hr, if_neg hge]

theorem go_net_last {ρ : Type} (O : Nat → AttemptOutcome ρ) (last a : Nat)
    (rest : List Nat) (m : String) (h : O a = .netError m) (hge : ¬a < last) :
    apiRequestGo O last (a :: rest) =
      ⟨.error ⟨-1, "Сетевая ошибка: " ++ m⟩, 1, []⟩ := by
  simp only [apiRequestGo, h, if_neg hge]

theorem apiRequest_three {ρ : Type} (O : Nat → AttemptOutcome ρ) :
    apiRequest O 3 = apiRequestGo O 2 [0, 1, 2] := rfl

/-! Claim theorems. -/

/-- C1: `_classify_error` maps each provider code to exactly one status per
the fixed table: 5 → auth_error; 6, 29 and 9 → rate_limit; 14 → captcha;
15 and 30 → access_denied; 214 → wall_disabled; 203 → group_not_found; and
every other code → unknown_error (so the mapping is total). -/
theorem classify_error_table :
    classifyError ERROR_AUTH = PostStatus.auth_error ∧
    classifyError ERROR_TOO_MANY_REQUESTS_1 = PostStatus.rate_limit ∧
    classifyError ERROR_TOO_MANY_REQUESTS_2 = PostStatus.rate_limit ∧
    classifyError ERROR_FLOOD = PostStatus.rate_limit ∧
    classifyError ERROR_CAPTCHA = PostStatus.captcha ∧
    classifyError ERROR_ACCESS_DENIED = PostStatus.access_denied ∧
    classifyError ERROR_WALL_ACCESS_DENIED = PostStatus.access_denied ∧
    classifyError ERROR_WALL_DISABLED = PostStatus.wall_disabled ∧
    classifyError ERROR_GROUP_ACCESS_DENIED = PostStatus.group_not_found ∧
    ∀ c : Int,
      c ∉ ([ERROR_AUTH, ERROR_TOO_MANY_REQUESTS_1, ERROR_FLOOD,
        ERROR_CAPTCHA, ERROR_ACCESS_DENIED, ERROR_TOO_MANY_REQUESTS_2,
        ERROR_WALL_ACCESS_DENIED, ERROR_WALL_DISABLED,
        ERROR_GROUP_ACCESS_DENIED] : List Int) →
      classifyError c = PostStatus.unknown_error := by
  refine ⟨rfl, rfl, rfl, rfl, rfl, rfl, rfl, rfl, rfl, ?_⟩
  intro c hc
  simp only [List.mem_cons, List.not_mem_nil, or_false, not_or] at hc
  obtain ⟨h1, h2, h3, h4, h5, h6, h7, h8, h9⟩ := hc
  simp only [classifyError, if_neg h1, if_neg h2, if_neg h3, if_neg h4,
    if_neg h5, if_neg h6, if_neg h7, if_neg h8, if_neg h9]

/-- Witness for C1: code 1000 is outside the table and classifies as
unknown_error. -/
theorem classify_error_table_witness :
    (1000 : Int) ∉ ([ERROR_AUTH, ERROR_TOO_MANY_REQUESTS_1, ERROR_FLOOD,
      ERROR_CAPTCHA, ERROR_ACCESS_DENIED, ERROR_TOO_MANY_REQUESTS_2,
      ERROR_WALL_ACCESS_DENIED, ERROR_WALL_DISABLED,
      ERROR_GROUP_ACCESS_DENIED] : List Int) ∧
    classifyError 1000 = PostStatus.unknown_error :=
  ⟨by decide, classify_error_table.2.2.2.2.2.2.2.2.2 1000 (by decide)⟩

/-! Metadata-fetch lemmas. -/

theorem dlookup_infoStep_ne (a : List (Int × GroupInfo)) (g : RawGroup)
    (gid : Int) (h : g.id ≠ gid) :
    dlookup (infoStep a g) gid = dlookup a gid := by
  unfold infoStep
  rw [dlookup_dinsert, if_neg fun hh => h hh.symm]

theorem dlookup_placeStep (a : List (Int × GroupInfo)) (k gid : Int) :
    dlookup (placeStep a k) gid = dlookup a gid ∨
    (k = gid ∧ dlookup a gid = none ∧
      dlookup (placeStep a k) gid = some (placeholderInfo gid)) := by
  unfold placeStep
  cases hl : dlookup a k with
  | some x => left; rfl
  | none =>
    by_cases hk : k = gid
    · subst hk
      right
      exact ⟨rfl, hl, by rw [dlookup_dinsert, if_pos rfl]⟩
    · left
      rw [dlookup_dinsert, if_neg fun hh => hk hh.symm]

theorem placeStep_pres_isSome (a : List (Int × GroupInfo)) (k gid : Int)
    (h : (dlookup a gid).isSome = true) :
    (dlookup (placeStep a k) gid).isSome = true := by
  rcases dlookup_placeStep a k gid with h1 | ⟨_, _, h3⟩
  · rw [h1]; exact h
  · rw [h3]; rfl

theorem placeStep_pres_placeholder (a : List (Int × GroupInfo)) (k gid : Int)
    (h : dlookup a gid = some (placeholderInfo gid)) :
    dlookup (placeStep a k) gid = some (placeholderInfo gid) := by
  rcases dlookup_placeStep a k gid with h1 | ⟨_, h2, _⟩
  · rw [h1]; exact h
  · rw [h] at h2; cases h2

theorem placeStep_pres_Pnp (a : List (Int × GroupInfo)) (k gid : Int)
    (h : dlookup a gid = none ∨
      dlookup a gid = some (placeholderInfo gid)) :
    dlookup (placeStep a k) gid = none ∨
    dlookup (placeStep a k) gid = some (placeholderInfo gid) := by
  rcases dlookup_placeStep a k gid with h1 | ⟨_, _, h3⟩
  · rw [h1]; exact h
  · right; exact h3

theorem pib_pres_isSome (infoO : List Int → Except VKApiErrorT (List RawGroup))
    (b : List Int) (acc : List (Int × GroupInfo)) (gid : Int)
    (h : (dlookup acc gid).isSome = true) :
    (dlookup (processInfoBatch infoO acc b) gid).isSome = true := by
  unfold processInfoBatch
  cases infoO b with
  | ok groups =>
    refine foldl_inv (fun a => (dlookup a gid).isSome = true) infoStep groups acc h ?_
    intro a g _ ha
    unfold infoStep
    rw [dlookup_dinsert]
    by_cases hg : gid = g.id
    · rw [if_pos hg]; rfl
    · rw [if_neg hg]; exact ha
  | error e =>
    refine foldl_inv (fun a => (dlookup a gid).isSome = true) placeStep b acc h ?_
    intro a k _ ha
    exact placeStep_pres_isSome a k gid ha

theorem pib_pres_Pnp (infoO : List Int → Except VKApiErrorT (List RawGroup))
    (b : List Int) (acc : List (Int × GroupInfo)) (gid : Int)
    (havoid : ∀ gs, infoO b = .ok gs → gid ∉ gs.map RawGroup.id)
    (h : dlookup acc gid = none ∨
      dlookup acc gid = some (placeholderInfo gid)) :
    dlookup (processInfoBatch infoO acc b) gid = none ∨
    dlookup (processInfoBatch infoO acc b) gid =
      some (placeholderInfo gid) := by
  unfold processInfoBatch
  cases hb : infoO b with
  | ok groups =>
    have hid : ∀ g ∈ groups, g.id ≠ gid := by
      intro g hg heq
      exact havoid groups hb (List.mem_map.mpr ⟨g, hg, heq⟩)
    refine foldl_inv (fun a => dlookup a gid = none ∨
      dlookup a gid = some (placeholderInfo gid)) infoStep groups acc h ?_
    intro a g hg ha
    rw [dlookup_infoStep_ne a g gid (hid g hg)]
    exact ha
  | error e =>
    refine foldl_inv (fun a => dlookup a gid = none ∨
      dlookup a gid = some (placeholderInfo gid)) placeStep b acc h ?_
    intro a k _ ha
    exact placeStep_pres_Pnp a k gid ha

theorem pib_pres_placeholder
    (infoO : List Int → Except VKApiErrorT (List RawGroup))
    (b : List Int) (acc : List (Int × GroupInfo)) (gid : Int)
    (havoid : ∀ gs, infoO b = .ok gs → gid ∉ gs.map RawGroup.id)
    (h : dlookup acc gid = some (placeholderInfo gid)) :
    dlookup (processInfoBatch infoO acc b) gid =
      some (placeholderInfo gid) := by
  unfold processInfoBatch
  cases hb : infoO b with
  | ok groups =>
    have hid : ∀ g ∈ groups, g.id ≠ gid := by
      intro g hg heq
      exact havoid groups hb (List.mem_map.mpr ⟨g, hg, heq⟩)
    refine foldl_inv (fun a => dlookup a gid = some (placeholderInfo gid))
      infoStep groups acc h ?_
    intro a g hg ha
    rw [dlookup_infoStep_ne a g gid (hid g hg)]
    exact ha
  | error e =>
    refine foldl_inv (fun a => dlookup a gid = some (placeholderInfo gid))
      placeStep b acc h ?_
    intro a k _ ha
    exact placeStep_pres_placeholder a k gid ha

theorem placeFold_isSome (b : List Int) (acc : List (Int × GroupInfo))
    (gid : Int) (hgid : gid ∈ b) :
    (dlookup (b.foldl placeStep acc) gid).isSome = true := by
  induction b generalizing acc with
  | nil => cases hgid
  | cons k rest ih =>
    simp only [List.foldl_cons]
    by_cases hk : gid ∈ rest
    · exact ih (placeStep acc k) hk
    · have hgk : gid = k := by
        rcases List.mem_cons.mp hgid with h | h
        · exact h
        · exact absurd h hk
      subst hgk
      have hbase : (dlookup (placeStep acc gid) gid).isSome = true := by
        unfold placeStep
        cases hl : dlookup acc gid with
        | some x => rw [hl]; rfl
        | none => rw [dlookup_dinsert, if_pos rfl]; rfl
      exact foldl_inv (fun a => (dlookup a gid).isSome = true) placeStep rest
        _ hbase fun a k' _ ha => placeStep_pres_isSome a k' gid ha

theorem placeFold_placeholder (b : List Int) (acc : List (Int × GroupInfo))
    (gid : Int) (hgid : gid ∈ b)
    (hP : dlookup acc gid = none ∨
      dlookup acc gid = some (placeholderInfo gid)) :
    dlookup (b.foldl placeStep acc) gid = some (placeholderInfo gid) := by
  induction b generalizing acc with
  | nil => cases hgid
  | cons k rest ih =>
    simp only [List.foldl_cons]
    by_cases hk : gid ∈ rest
    · exact ih (placeStep acc k) hk (placeStep_pres_Pnp acc k gid hP)
    · have hgk : gid = k := by
        rcases List.mem_cons.mp hgid with h | h
        · exact h
        · exact absurd h hk
      subst hgk
      have hbase : dlookup (placeStep acc gid) gid =
          some (placeholderInfo gid) := by
        unfold placeStep
        rcases hP with h0 | h0 <;> rw [h0]
        · rw [dlookup_dinsert, if_pos rfl]
        · exact h0
      exact foldl_inv (fun a => dlookup a gid = some (placeholderInfo gid))
        placeStep rest _ hbase
        fun a k' _ ha => placeStep_pres_placeholder a k' gid ha

/-! Dispatch-loop lemmas. -/

theorem processLoop_skip (info : List (Int × GroupInfo))
    (postO : Int → Except VKApiErrorT (Option Int)) (stop : Bool)
    (t : String × Int) (rest : List (String × Int))
    (hs : shouldSkip (dlookup info t.2) = true) :
    processLoop info postO stop (t :: rest) =
      (suggestDisabledResult t.2 (groupDisplayName (dlookup info t.2) t.2) ::
        (processLoop info postO stop rest).1,
       (processLoop info postO stop rest).2) := by
  rw [processLoop]
  dsimp only
  rw [if_pos hs]

theorem processLoop_break (info : List (Int × GroupInfo))
    (postO : Int → Except VKApiErrorT (Option Int)) (stop : Bool)
    (t : String × Int) (rest : List (String × Int))
    (hs : ¬shouldSkip (dlookup info t.2) = true)
    (hbr : stop = true ∧ (postToSuggestion (postO t.2) t.2
      (groupDisplayName (dlookup info t.2) t.2)).status =
      PostStatus.auth_error) :
    processLoop info postO stop (t :: rest) =
      ([postToSuggestion (postO t.2) t.2
        (groupDisplayName (dlookup info t.2) t.2)], [t.2]) := by
  rw [processLoop]
  dsimp only
  rw [if_neg hs, if_pos hbr]

theorem processLoop_go (info : List (Int × GroupInfo))
    (postO : Int → Except VKApiErrorT (Option Int)) (stop : Bool)
    (t : String × Int) (rest : List (String × Int))
    (hs : ¬shouldSkip (dlookup info t.2) = true)
    (hbr : ¬(stop = true ∧ (postToSuggestion (postO t.2) t.2
      (groupDisplayName (dlookup info t.2) t.2)).status =
      PostStatus.auth_error)) :
    processLoop info postO stop (t :: rest) =
      (postToSuggestion (postO t.2) t.2
          (groupDisplayName (dlookup info t.2) t.2) ::
        (processLoop info postO stop rest).1,
       t.2 :: (processLoop info postO stop rest).2) := by
  rw [processLoop]
  dsimp only
  rw [if_neg hs, if_neg hbr]

theorem loop_get (info : List (Int × GroupInfo))
    (postO : Int → Except VKApiErrorT (Option Int)) (stop : Bool)
    (ts : List (String × Int)) (j : Nat) (r : PostResult)
    (h : (processLoop info postO stop ts).1.get? j = some r) :
    ∃ t, ts.get? j = some t ∧ r = processStep info postO t := by
  induction ts generalizing j with
  | nil => simp [processLoop] at h
  | cons t rest ih =>
    by_cases hs : shouldSkip (dlookup info t.2) = true
    · rw [processLoop_skip info postO stop t rest hs] at h
      cases j with
      | zero =>
        refine ⟨t, rfl, ?_⟩
        have hr := Option.some.inj h
        unfold processStep
        rw [if_pos hs, ← hr]
      | succ j' =>
        obtain ⟨t', ht', hr⟩ := ih j' h
        exact ⟨t', ht', hr⟩
    · by_cases hbr : stop = true ∧ (postToSuggestion (postO t.2) t.2
          (groupDisplayName (dlookup info t.2) t.2)).status =
          PostStatus.auth_error
      · rw [processLoop_break info postO stop t rest hs hbr] at h
        cases j with
        | zero =>
          refine ⟨t, rfl, ?_⟩
          have hr := Option.some.inj h
          unfold processStep
          rw [if_neg hs, ← hr]
        | succ j' => simp at h
      · rw [processLoop_go info postO stop t rest hs hbr] at h
        cases j with
        | zero =>
          refine ⟨t, rfl, ?_⟩
          have hr := Option.some.inj h
          unfold processStep
          rw [if_neg hs, ← hr]
        | succ j' =>
          obtain ⟨t', ht', hr⟩ := ih j' h
          exact ⟨t', ht', hr⟩

theorem loop_dispatched (info : List (Int × GroupInfo))
    (postO : Int → Except VKApiErrorT (Option Int)) (stop : Bool)
    (ts : List (String × Int)) (gid : Int)
    (h : gid ∈ (processLoop info postO stop ts).2) :
    shouldSkip (dlookup info gid) = false := by
  induction ts with
  | nil => simp [processLoop] at h
  | cons t rest ih =>
    by_cases hs : shouldSkip (dlookup info t.2) = true
    · rw [processLoop_skip info postO stop t rest hs] at h
      exact ih h
    · by_cases hbr : stop = true ∧ (postToSuggestion (postO t.2) t.2
          (groupDisplayName (dlookup info t.2) t.2)).status =
          PostStatus.auth_error
      · rw [processLoop_break info postO stop t rest hs hbr] at h
        have hg : gid = t.2 := List.mem_singleton.mp h
        rw [hg]
        exact Bool.not_eq_true _ ▸ (by simpa using hs)
      · rw [processLoop_go info postO stop t rest hs hbr] at h
        rcases List.mem_cons.mp h with h1 | h1
        · rw [h1]
          simpa using hs
        · exact ih h1

theorem loop_auth_last (info : List (Int × GroupInfo))
    (postO : Int → Except VKApiErrorT (Option Int))
    (ts : List (String × Int)) (j : Nat) (r : PostResult)
    (h : (processLoop info postO true ts).1.get? j = some r)
    (hst : r.status = PostStatus.auth_error) :
    (processLoop info postO true ts).1.length = j + 1 := by
  induction ts generalizing j with
  | nil => simp [processLoop] at h
  | cons t rest ih =>
    by_cases hs : shouldSkip (dlookup info t.2) = true
    · rw [processLoop_skip info postO true t rest hs] at h ⊢
      cases j with
      | zero =>
        have hr := Option.some.inj h
        rw [← hr] at hst
        simp [suggestDisabledResult] at hst
      | succ j' =>
        simp only [List.length_cons]
        rw [ih j' h]
    · by_cases hbr : true = true ∧ (postToSuggestion (postO t.2) t.2
          (groupDisplayName (dlookup info t.2) t.2)).status =
          PostStatus.auth_error
      · rw [processLoop_break info postO true t rest hs hbr] at h ⊢
        cases j with
        | zero => rfl
        | succ j' => simp at h
      · rw [processLoop_go info postO true t rest hs hbr] at h ⊢
        cases j with
        | zero =>
          have hr := Option.some.inj h
          rw [← hr] at hst
          exact absurd ⟨rfl, hst⟩ hbr
        | succ j' =>
          simp only [List.length_cons]
          rw [ih j' h]

theorem postToSuggestion_status (api : Except VKApiErrorT (Option Int))
    (gid : Int) (name : String) :
    (postToSuggestion api gid name).status = PostStatus.success ∨
    (postToSuggestion api gid name).status = PostStatus.unknown_error ∨
    ∃ c, (postToSuggestion api gid name).status = classifyError c := by
  unfold postToSuggestion
  rcases api with e | resp
  · exact Or.inr (Or.inr ⟨e.code, rfl⟩)
  · cases resp with
    | none => exact Or.inr (Or.inl rfl)
    | some pid =>
      dsimp only
      by_cases hp : pid = 0
      · rw [if_pos hp]
        exact Or.inr (Or.inl rfl)
      · rw [if_neg hp]
        exact Or.inl rfl

theorem classifyError_ne (c : Int) :
    classifyError c ≠ PostStatus.not_member ∧
    classifyError c ≠ PostStatus.network_error := by
  refine ⟨?_, ?_⟩ <;> (unfold classifyError; repeat' split) <;> decide

theorem postToSuggestion_status_ne (api : Except VKApiErrorT (Option Int))
    (gid : Int) (name : String) :
    (postToSuggestion api gid name).status ≠ PostStatus.not_member ∧
    (postToSuggestion api gid name).status ≠ PostStatus.network_error := by
  rcases postToSuggestion_status api gid name with h | h | ⟨c, h⟩
  · rw [h]; exact ⟨by decide, by decide⟩
  · rw [h]; exact ⟨by decide, by decide⟩
  · rw [h]; exact classifyError_ne c

theorem loop_status_mem (info : List (Int × GroupInfo))
    (postO : Int → Except VKApiErrorT (Option Int)) (stop : Bool)
    (ts : List (String × Int)) (r : PostResult)
    (h : r ∈ (processLoop info postO stop ts).1) :
    r.status ≠ PostStatus.not_member ∧
    r.status ≠ PostStatus.network_error := by
  induction ts with
  | nil => simp [processLoop] at h
  | cons t rest ih =>
    by_cases hs : shouldSkip (dlookup info t.2) = true
    · rw [processLoop_skip info postO stop t rest hs] at h
      rcases List.mem_cons.mp h with h1 | h1
      · rw [h1]
        exact ⟨by simp [suggestDisabledResult], by simp [suggestDisabledResult]⟩
      · exact ih h1
    · by_cases hbr : stop = true ∧ (postToSuggestion (postO t.2) t.2
          (groupDisplayName (dlookup info t.2) t.2)).status =
          PostStatus.auth_error
      · rw [processLoop_break info postO stop t rest hs hbr] at h
        rw [List.mem_singleton.mp h]
        exact postToSuggestion_status_ne _ _ _
      · rw [processLoop_go info postO stop t rest hs hbr] at h
        rcases List.mem_cons.mp h with h1 | h1
        · rw [h1]
          exact postToSuggestion_status_ne _ _ _
        · exact ih h1

theorem processGroups_eq
    (lookupO : List String → Except VKApiErrorT (List ResolvedGroup))
    (infoO : List Int → Except VKApiErrorT (List RawGroup))
    (postO : Int → Except VKApiErrorT (Option Int))
    (ids : List String) (stop : Bool) :
    processGroups lookupO infoO postO ids stop =
      processLoop
        (getGroupsInfo infoO ((resolveGroupIds lookupO ids).map Prod.snd))
        postO stop (resolveGroupIds lookupO ids) := by
  unfold processGroups
  by_cases h : (resolveGroupIds lookupO ids).isEmpty = true
  · rw [if_pos h]
    rw [List.isEmpty_iff.mp h]
    rfl
  · rw [if_neg h]

/-- C7: for every id list, if the metadata lookup of a batch fails, then
every id of that batch is present in the mapping returned by
`get_groups_info` (no id of a failed batch is missing), and every such id
that is not resolved by any successful batch lookup carries the
placeholder record — `can_post = false`, `can_suggest = false`, and the
synthesized display name. -/
theorem groups_info_failed_batch
    (infoO : List Int → Except VKApiErrorT (List RawGroup))
    (ids : List Int) (b : List Int) (e : VKApiErrorT) (gid : Int)
    (hb : b ∈ chunksP 499 ids) (he : infoO b = .error e) (hgid : gid ∈ b) :
    (dlookup (getGroupsInfo infoO ids) gid).isSome = true ∧
    ((∀ b' gs, b' ∈ chunksP 499 ids → infoO b' = .ok gs →
        gid ∉ gs.map RawGroup.id) →
      dlookup (getGroupsInfo infoO ids) gid =
        some (placeholderInfo gid)) := by
  obtain ⟨pre, post, hsplit⟩ := List.append_of_mem hb
  unfold getGroupsInfo
  rw [hsplit, List.foldl_append, List.foldl_cons]
  have hfail : processInfoBatch infoO
      (List.foldl (processInfoBatch infoO) [] pre) b =
      b.foldl placeStep (List.foldl (processInfoBatch infoO) [] pre) := by
    unfold processInfoBatch
    rw [he]
  constructor
  · rw [hfail]
    refine foldl_inv (fun a => (dlookup a gid).isSome = true)
      (processInfoBatch infoO) post _ ?_ ?_
    · exact placeFold_isSome b _ gid hgid
    · intro a b' _ ha
      exact pib_pres_isSome infoO b' a gid ha
  · intro hns
    have hPpre : dlookup (List.foldl (processInfoBatch infoO) [] pre) gid =
        none ∨
        dlookup (List.foldl (processInfoBatch infoO) [] pre) gid =
          some (placeholderInfo gid) := by
      refine foldl_inv (fun a => dlookup a gid = none ∨
          dlookup a gid = some (placeholderInfo gid))
        (processInfoBatch infoO) pre [] (Or.inl rfl) ?_
      intro a b' hb' ha
      refine pib_pres_Pnp infoO b' a gid ?_ ha
      intro gs hgs
      refine hns b' gs ?_ hgs
      exact List.mem_append.mpr (Or.inl hb')
    rw [hfail]
    refine foldl_inv (fun a => dlookup a gid = some (placeholderInfo gid))
      (processInfoBatch infoO) post _ ?_ ?_
    · exact placeFold_placeholder b _ gid hgid hPpre
    · intro a b' hb' ha
      refine pib_pres_placeholder infoO b' a gid ?_ ha
      intro gs hgs
      refine hns b' gs ?_ hgs
      exact List.mem_append.mpr (Or.inr (List.mem_cons_of_mem _ hb'))

/-- A metadata oracle whose every batch call fails. -/
def infoFailO : List Int → Except VKApiErrorT (List RawGroup) :=
  fun _ => .error ⟨1, "down"⟩

/-- Witness for C7: id 5 of the (failing) single batch of `[5]` is present
and carries the placeholder record. -/
theorem groups_info_failed_batch_witness :
    (dlookup (getGroupsInfo infoFailO [5]) 5).isSome = true ∧
    dlookup (getGroupsInfo infoFailO [5]) 5 = some (placeholderInfo 5) := by
  have h := groups_info_failed_batch infoFailO [5] [5] ⟨1, "down"⟩ 5
    (by decide) rfl (by decide)
  refine ⟨h.1, h.2 ?_⟩
  intro b' gs _ hgs
  simp [infoFailO] at hgs

/-- A lookup oracle resolving the handle `abc` to community id 7. -/
def lookupFix : List String → Except VKApiErrorT (List ResolvedGroup) :=
  fun _ => .ok [⟨7, "abc"⟩]

/-- Counterexample to C4: for the input `["abc", "5"]` (with `abc`
resolving to id 7), the returned map is `[("5", 5), ("abc", 7)]` — the
numeric identifier's entry precedes the handle's even though the handle
came first in the input, so entry order does not match input order. -/
theorem resolve_order_counterexample :
    resolveGroupIds lookupFix ["abc", "5"] = [("5", 5), ("abc", 7)] ∧
    dkeys (resolveGroupIds lookupFix ["abc", "5"]) ≠ ["abc", "5"] := by
  constructor
  · decide
  · decide

/-- C4 amended: the map returned by `resolve_group_ids` is NOT in input
order for mixed lists; instead it is the numeric-pass entries followed by
the batch-resolved handle entries: every numeric entry key parses as an
integer, every handle entry key does not, and the numeric entries' keys
appear in input order (a subsequence of the cleaned input sequence). -/
theorem resolve_order_amended
    (L : List String → Except VKApiErrorT (List ResolvedGroup))
    (ids : List String) :
    ∃ B, resolveGroupIds L ids = (resolvePassOne ids).1 ++ B ∧
      (∀ p ∈ (resolvePassOne ids).1, (pyInt? p.1).isSome = true) ∧
      (∀ p ∈ B, pyInt? p.1 = none) ∧
      List.Sublist (dkeys (resolvePassOne ids).1) (cleanedSeq ids) := by
  obtain ⟨B, hEq, hB⟩ := resolveGroupIds_split L ids
  refine ⟨B, hEq, ?_, hB, ?_⟩
  · intro p hp
    obtain ⟨n, hn, _⟩ := passOne_fst_parses ids ([], []) (by simp) p hp
    rw [hn]; rfl
  · have := passOne_keys_sublist ids ([], [])
    simpa [dkeys] using this

/-- Witness for C4's amended claim at the counterexample input: the
numeric entry keys form a subsequence of the cleaned inputs and all parse
as integers. -/
theorem resolve_order_amended_witness :
    List.Sublist (dkeys (resolvePassOne ["abc", "5"]).1)
      (cleanedSeq ["abc", "5"]) ∧
    ∀ p ∈ (resolvePassOne ["abc", "5"]).1, (pyInt? p.1).isSome = true := by
  obtain ⟨B, h1, h2, h3, h4⟩ := resolve_order_amended lookupFix ["abc", "5"]
  exact ⟨h4, h2⟩

/-- A lookup oracle that resolves nothing. -/
def lookupNone : List String → Except VKApiErrorT (List ResolvedGroup) :=
  fun _ => .ok []

/-- Counterexample to C5: the purely-numeric identifier `"0"` is resolved
(without any lookup) to id 0, which is not strictly greater than 0. -/
theorem resolve_numeric_counterexample :
    dlookup (resolveGroupIds lookupNone ["0"]) "0" = some 0 ∧
    ¬(0 : Int) > 0 := by
  constructor
  · decide
  · decide

/-- C5 amended: every identifier whose cleaned form parses as an integer
`n` is mapped (independently of the lookup oracle, hence without any
network call) to `abs(n)`, which is nonnegative, and strictly positive
whenever `n ≠ 0` (the identifier `"0"` yields id 0). -/
theorem resolve_numeric_amended
    (L : List String → Except VKApiErrorT (List ResolvedGroup))
    (ids : List String) (k : String) (n v : Int)
    (hk : pyInt? k = some n)
    (hv : dlookup (resolveGroupIds L ids) k = some v) :
    v = Int.ofNat n.natAbs ∧ 0 ≤ v ∧ (n ≠ 0 → 0 < v) := by
  obtain ⟨B, hEq, hB⟩ := resolveGroupIds_split L ids
  rw [hEq] at hv
  have hBk : ∀ p ∈ B, p.1 ≠ k := by
    intro p hp heq
    have hnone := hB p hp
    rw [heq, hk] at hnone
    cases hnone
  cases hA : dlookup (resolvePassOne ids).1 k with
  | none =>
    rw [dlookup_append_none B hA, dlookup_eq_none_of hBk] at hv
    cases hv
  | some v0 =>
    rw [dlookup_append_some B hA] at hv
    have hvv : v0 = v := Option.some.inj hv
    subst hvv
    obtain ⟨m, hm, hval⟩ := passOne_fst_parses ids ([], []) (by simp)
      (k, v0) (dlookup_mem hA)
    obtain rfl : m = n := by
      rw [hk] at hm
      exact (Option.some.inj hm).symm
    dsimp only at hval
    refine ⟨hval, ?_, ?_⟩
    · rw [hval]; exact Int.natCast_nonneg _
    · intro hn0
      rw [hval]
      have hpos : 0 < m.natAbs := Int.natAbs_pos.mpr hn0
      exact Int.ofNat_pos.mpr hpos

/-- Witness for C5's amended claim: `"7"` resolves to 7 > 0 with no
lookup result available. -/
theorem resolve_numeric_amended_witness :
    dlookup (resolveGroupIds lookupNone ["7"]) "7" = some 7 ∧
    (0 : Int) < 7 := by
  have h := resolve_numeric_amended lookupNone ["7"] "7" 7 7 (by decide)
    (by decide)
  exact ⟨by decide, h.2.2 (by decide)⟩

/-- C6: `_api_request` makes at most 3 attempts; a provider error whose
code is not among the three throttling codes is surfaced immediately on
the attempt where it occurs (no retry); a throttling code before the last
attempt causes a sleep of `(attempt_index + 1) * 2` seconds and a retry;
a throttling code on the last attempt surfaces a failure carrying that
error's code and message. -/
theorem api_request_retry_policy {ρ : Type} (O : Nat → AttemptOutcome ρ) :
    (apiRequest O 3).attempts ≤ 3 ∧
    (∀ k c m, k < 3 → reachedAt O k → O k = AttemptOutcome.apiError c m →
      isRateLimitCode c = false →
      (apiRequest O 3).outcome = Except.error ⟨c, m⟩ ∧
      (apiRequest O 3).attempts = k + 1) ∧
    (∀ k c m, k < 2 → reachedAt O k → O k = AttemptOutcome.apiError c m →
      isRateLimitCode c = true →
      (apiRequest O 3).waits.get? k = some ((k + 1) * 2) ∧
      k + 2 ≤ (apiRequest O 3).attempts) ∧
    (∀ c m, reachedAt O 2 → O 2 = AttemptOutcome.apiError c m →
      isRateLimitCode c = true →
      (apiRequest O 3).outcome = Except.error ⟨c, m⟩) := by
  simp only [apiRequest_three]
  refine ⟨?_, ?_, ?_, ?_⟩
  · simpa using go_attempts_le O 2 [0, 1, 2]
  · intro k c m hk hreach hO hrl
    interval_cases k
    · rw [go_api_fail O 2 0 [1, 2] c m hO hrl]
      exact ⟨rfl, rfl⟩
    · have t0 : isTransient (O 0) = true := hreach 0 (by omega)
      rw [go_transient O 2 0 [1, 2] t0 (by omega),
        go_api_fail O 2 1 [2] c m hO hrl]
      exact ⟨rfl, rfl⟩
    · have t0 : isTransient (O 0) = true := hreach 0 (by omega)
      have t1 : isTransient (O 1) = true := hreach 1 (by omega)
      rw [go_transient O 2 0 [1, 2] t0 (by omega),
        go_transient O 2 1 [2] t1 (by omega),
        go_api_fail O 2 2 [] c m hO hrl]
      exact ⟨rfl, rfl⟩
  · intro k c m hk hreach hO hrl
    have htk : isTransient (O k) = true := by
      rw [hO]; simpa [isTransient] using hrl
    interval_cases k
    · rw [go_transient O 2 0 [1, 2] htk (by omega)]
      refine ⟨?_, ?_⟩
      · show (waitOf (O 0) 0 :: _).get? 0 = some ((0 + 1) * 2)
        rw [hO]; rfl
      · have := go_attempts_pos O 2 1 [2]
        show (apiRequestGo O 2 [1, 2]).attempts + 1 ≥ 2
        omega
    · have t0 : isTransient (O 0) = true := hreach 0 (by omega)
      rw [go_transient O 2 0 [1, 2] t0 (by omega),
        go_transient O 2 1 [2] htk (by omega)]
      refine ⟨?_, ?_⟩
      · show (waitOf (O 0) 0 :: waitOf (O 1) 1 :: _).get? 1 = some ((1 + 1) * 2)
        rw [hO]; rfl
      · have := go_attempts_pos O 2 2 []
        show (apiRequestGo O 2 [2]).attempts + 1 + 1 ≥ 3
        omega
  · intro c m hreach hO hrl
    have t0 : isTransient (O 0) = true := hreach 0 (by omega)
    have t1 : isTransient (O 1) = true := hreach 1 (by omega)
    rw [go_transient O 2 0 [1, 2] t0 (by omega),
      go_transient O 2 1 [2] t1 (by omega),
      go_throttle_last O 2 2 [] c m hO hrl (by omega)]

/-- A fixed oracle whose first attempt reports a non-throttling provider
error. -/
def oracleW : Nat → AttemptOutcome Nat := fun _ =>
  AttemptOutcome.apiError 100 "denied"

/-- Witness for C6: a non-throttling provider error on the first attempt
is surfaced immediately, after exactly one attempt. -/
theorem api_request_retry_policy_witness :
    (apiRequest oracleW 3).outcome = Except.error ⟨100, "denied"⟩ ∧
    (apiRequest oracleW 3).attempts = 1 :=
  (api_request_retry_policy oracleW).2.1 0 100 "denied" (by omega)
    (fun j hj => absurd hj (Nat.not_lt_zero j)) rfl (by decide)

/-- C8: `upload_photo` returns `None` (it never raises — in the embedding,
it is total with codomain `Option String`) whenever any phase fails: a
failed `getWallUploadServer` call, a missing upload URL, a transport or
decoding failure of the multipart POST, a missing/empty/`"[]"` photo
field, or a failed or empty `saveWallPhoto` response.  On full success it
returns `photo{owner_id}_{photo_id}`, with `_{access_key}` appended when a
nonempty access key is present. -/
theorem upload_photo_spec :
    (∀ e hO svO, uploadPhoto (.error e) hO svO = none) ∧
    (∀ hO svO, uploadPhoto (.ok ⟨none⟩) hO svO = none) ∧
    (∀ u m svO, uploadPhoto (.ok ⟨some u⟩) (.error m) svO = none) ∧
    (∀ u r svO, r.photo = none ∨ r.photo = some "" ∨ r.photo = some "[]" →
      uploadPhoto (.ok ⟨some u⟩) (.ok r) svO = none) ∧
    (∀ u r e, uploadPhoto (.ok ⟨some u⟩) (.ok r) (.error e) = none) ∧
    (∀ u r, uploadPhoto (.ok ⟨some u⟩) (.ok r) (.ok []) = none) ∧
    (∀ sO hO svO s, uploadPhoto sO hO svO = some s →
      ∃ ph : SavedPhoto, (∃ rest, svO = .ok (ph :: rest)) ∧
        ((ph.access_key.getD "" = "" ∧
          s = "photo" ++ toString ph.owner_id ++ "_" ++ toString ph.id) ∨
         (ph.access_key.getD "" ≠ "" ∧
          s = "photo" ++ toString ph.owner_id ++ "_" ++ toString ph.id ++
            "_" ++ ph.access_key.getD ""))) := by
  refine ⟨fun e hO svO => rfl, fun hO svO => rfl, fun u m svO => rfl,
    ?_, ?_, ?_, ?_⟩
  · intro u r svO h
    rcases r with ⟨photo, server, hash⟩
    dsimp only at h
    rcases h with h | h | h <;> subst h <;> simp [uploadPhoto]
  · intro u r e
    rcases r with ⟨photo, server, hash⟩
    cases photo with
    | none => rfl
    | some p =>
      simp only [uploadPhoto]
      split
      · rfl
      · cases server <;> cases hash <;> rfl
  · intro u r
    rcases r with ⟨photo, server, hash⟩
    cases photo with
    | none => rfl
    | some p =>
      simp only [uploadPhoto]
      split
      · rfl
      · cases server <;> cases hash <;> rfl
  · intro sO hO svO s h
    rcases sO with e | sr
    · simp [uploadPhoto] at h
    rcases sr with ⟨url⟩
    cases url with
    | none => simp [uploadPhoto] at h
    | some u =>
      rcases hO with m | r
      · simp [uploadPhoto] at h
      rcases r with ⟨photo, server, hash⟩
      cases photo with
      | none => simp [uploadPhoto] at h
      | some p =>
        simp only [uploadPhoto] at h
        by_cases hp : p = "" ∨ p = "[]"
        · rw [if_pos hp] at h; cases h
        rw [if_neg hp] at h
        cases server with
        | none => cases hash <;> dsimp only at h <;> exact Option.noConfusion h
        | some sv =>
          cases hash with
          | none => dsimp only at h; exact Option.noConfusion h
          | some hs =>
            rcases svO with e | saved
            · dsimp only at h; exact Option.noConfusion h
            cases saved with
            | nil => dsimp only at h; exact Option.noConfusion h
            | cons ph rest =>
              dsimp only at h
              refine ⟨ph, ⟨rest, rfl⟩, ?_⟩
              by_cases hk : ph.access_key.getD "" = ""
              · left
                rw [if_neg (not_not_intro hk)] at h
                exact ⟨hk, (Option.some.inj h).symm⟩
              · right
                rw [if_pos hk] at h
                exact ⟨hk, (Option.some.inj h).symm⟩

/-- Witness for C8: a full success with an access key present yields the
three-part token. -/
theorem upload_photo_spec_witness :
    ∃ ph : SavedPhoto,
      (∃ rest, (Except.ok [(⟨-33, 44, some "k"⟩ : SavedPhoto)] :
        Except VKApiErrorT (List SavedPhoto)) = .ok (ph :: rest)) ∧
      ((ph.access_key.getD "" = "" ∧
        "photo-33_44_k" = "photo" ++ toString ph.owner_id ++ "_" ++
          toString ph.id) ∨
       (ph.access_key.getD "" ≠ "" ∧
        "photo-33_44_k" = "photo" ++ toString ph.owner_id ++ "_" ++
          toString ph.id ++ "_" ++ ph.access_key.getD "")) :=
  upload_photo_spec.2.2.2.2.2.2 (.ok ⟨some "u"⟩)
    (.ok ⟨some "p", some "s", some "h"⟩) (.ok [⟨-33, 44, some "k"⟩])
    "photo-33_44_k" (by rfl)

/-- C9: for every result list, the summary returned by
`get_results_summary` satisfies
`sum(by_status.values()) == total == success + failed`, and `total` is the
length of the input list. -/
theorem results_summary_conservation (results : List PostResult) :
    sumCounts (getResultsSummary results).by_status =
      (getResultsSummary results).total ∧
    (getResultsSummary results).success + (getResultsSummary results).failed =
      (getResultsSummary results).total ∧
    (getResultsSummary results).total = results.length := by
  obtain ⟨h1, h2, h3⟩ := summary_fold results
    { total := results.length, success := 0, failed := 0, by_status := [] }
  dsimp only at h1 h2 h3
  unfold getResultsSummary
  refine ⟨?_, ?_, ?_⟩
  · rw [h3, h1]; simp [sumCounts]
  · rw [h2, h1]; simp
  · exact h1

/-- C2: a target whose fetched `GroupInfo` has `can_post = false` and
`can_suggest = false` never triggers `post_to_suggestion` (its id is never
dispatched), and its entry in the result list, whenever the target is
processed, is a `suggest_disabled` result for that id. -/
theorem process_groups_suggest_disabled
    (lookupO : List String → Except VKApiErrorT (List ResolvedGroup))
    (infoO : List Int → Except VKApiErrorT (List RawGroup))
    (postO : Int → Except VKApiErrorT (Option Int))
    (ids : List String) (stop : Bool) (gid : Int) (g : GroupInfo)
    (hinfo : dlookup (getGroupsInfo infoO
      ((resolveGroupIds lookupO ids).map Prod.snd)) gid = some g)
    (hcp : g.can_post = false) (hcs : g.can_suggest = false) :
    gid ∉ (processGroups lookupO infoO postO ids stop).2 ∧
    ∀ j ident r, (resolveGroupIds lookupO ids).get? j = some (ident, gid) →
      (processGroups lookupO infoO postO ids stop).1.get? j = some r →
      r.status = PostStatus.suggest_disabled ∧ r.group_id = gid := by
  have hskip : shouldSkip (dlookup (getGroupsInfo infoO
      ((resolveGroupIds lookupO ids).map Prod.snd)) gid) = true := by
    rw [hinfo]
    simp [shouldSkip, hcp, hcs]
  rw [processGroups_eq]
  constructor
  · intro hmem
    have hfalse := loop_dispatched _ postO stop _ gid hmem
    rw [hskip] at hfalse
    cases hfalse
  · intro j ident r hres hget
    obtain ⟨t, ht, hr⟩ := loop_get _ postO stop _ j r hget
    rw [ht] at hres
    obtain rfl : t = (ident, gid) := Option.some.inj hres
    unfold processStep at hr
    rw [if_pos hskip] at hr
    rw [hr]
    exact ⟨rfl, rfl⟩

/-- A metadata oracle reporting both permissions disabled for every id. -/
def infoBothFalse : List Int → Except VKApiErrorT (List RawGroup) :=
  fun b => .ok (b.map fun gid => { id := gid, name := some "G" })

/-- A dispatch oracle that would succeed with post id 1. -/
def postOkW : Int → Except VKApiErrorT (Option Int) :=
  fun _ => .ok (some 1)

/-- Witness for C2: community 5, fetched with both flags false, is never
dispatched and yields a `suggest_disabled` result. -/
theorem process_groups_suggest_disabled_witness :
    (5 : Int) ∉ (processGroups lookupNone infoBothFalse postOkW ["5"] true).2 ∧
    (processGroups lookupNone infoBothFalse postOkW ["5"] true).1.get? 0 =
      some (suggestDisabledResult 5 "G") := by
  have h := process_groups_suggest_disabled lookupNone infoBothFalse postOkW
    ["5"] true 5
    { group_id := 5, name := "G", screen_name := "5", can_post := false,
      can_suggest := false, is_closed := 0, is_member := false }
    (by decide) rfl rfl
  exact ⟨h.1, by decide⟩

/-- C3: with `stop_on_auth_error = true`, if the result at processing
position `j` (0-based) classifies as `auth_error`, then the result list
ends there: its length is exactly `j + 1`, never longer — the auth result
is appended and no later target is processed. -/
theorem process_groups_stop_on_auth
    (lookupO : List String → Except VKApiErrorT (List ResolvedGroup))
    (infoO : List Int → Except VKApiErrorT (List RawGroup))
    (postO : Int → Except VKApiErrorT (Option Int))
    (ids : List String) (j : Nat) (r : PostResult)
    (hget : (processGroups lookupO infoO postO ids true).1.get? j = some r)
    (hst : r.status = PostStatus.auth_error) :
    (processGroups lookupO infoO postO ids true).1.length = j + 1 := by
  rw [processGroups_eq] at hget ⊢
  exact loop_auth_last _ postO _ j r hget hst

/-- A metadata oracle granting both permissions for every id. -/
def infoAllowW : List Int → Except VKApiErrorT (List RawGroup) :=
  fun b => .ok (b.map fun gid =>
    { id := gid, can_post := 1, can_suggest := 1 })

/-- A dispatch oracle failing with the auth error code. -/
def postAuthW : Int → Except VKApiErrorT (Option Int) :=
  fun _ => .error ⟨5, "auth"⟩

/-- Witness for C3: with an auth failure on the first of two targets, the
batch stops after exactly one result. -/
theorem process_groups_stop_on_auth_witness :
    (processGroups lookupNone infoAllowW postAuthW ["5", "6"] true).1.length
      = 1 :=
  process_groups_stop_on_auth lookupNone infoAllowW postAuthW ["5", "6"] 0
    { group_id := 5, group_name := "Группа 5",
      status := PostStatus.auth_error, post_id := none,
      error_message := some "auth", error_code := some 5 }
    (by decide) rfl

/-- C10: no operation produces a `not_member` or `network_error` result:
the classification table contains neither status; a transport failure that
exhausts all retries is surfaced with provider code -1; code -1 (like
every unlisted code) classifies as `unknown_error`; and every result of
`process_groups` has a status other than `not_member` and
`network_error`. -/
theorem no_not_member_or_network_error :
    (∀ c : Int, classifyError c ≠ PostStatus.not_member ∧
      classifyError c ≠ PostStatus.network_error) ∧
    classifyError (-1) = PostStatus.unknown_error ∧
    (∀ (O : Nat → AttemptOutcome Nat) (m : String), reachedAt O 2 →
      O 2 = AttemptOutcome.netError m →
      (apiRequest O 3).outcome =
        Except.error ⟨-1, "Сетевая ошибка: " ++ m⟩) ∧
    (∀ lookupO infoO postO ids stop r,
      r ∈ (processGroups lookupO infoO postO ids stop).1 →
      r.status ≠ PostStatus.not_member ∧
      r.status ≠ PostStatus.network_error) := by
  refine ⟨classifyError_ne, by decide, ?_, ?_⟩
  · intro O m hreach hO
    have t0 : isTransient (O 0) = true := hreach 0 (by omega)
    have t1 : isTransient (O 1) = true := hreach 1 (by omega)
    simp only [apiRequest_three]
    rw [go_transient O 2 0 [1, 2] t0 (by omega),
      go_transient O 2 1 [2] t1 (by omega),
      go_net_last O 2 2 [] m hO (by omega)]
  · intro lookupO infoO postO ids stop r hmem
    rw [processGroups_eq] at hmem
    exact loop_status_mem _ postO stop _ r hmem

/-- An oracle whose every attempt is a transport failure. -/
def oracleNet : Nat → AttemptOutcome Nat := fun _ =>
  AttemptOutcome.netError "t"

/-- Witness for C10: exhausting all attempts on transport failures
surfaces provider code -1. -/
theorem no_not_member_or_network_error_witness :
    (apiRequest oracleNet 3).outcome =
      Except.error ⟨-1, "Сетевая ошибка: " ++ "t"⟩ :=
  no_not_member_or_network_error.2.2.1 oracleNet "t" (fun _ _ => rfl) rfl

end VKS
